import Mathlib

/-!
Shallow embedding of the reconciliation core of a VyOS Terraform provider
(`src/vyos/resource_vyos_config.go` and `src/vyos/api_client.go`).

Conventions of the embedding:
* Go `[]string` paths become `List String`.
* Go `types.String` (nullable Terraform string) becomes `Option String`;
  `ValueString()` of a null value is the empty string (`valueStr`).
* JSON-decoded device trees (`map[string]interface{}`, `[]interface{}`,
  scalars) become the inductive `Fragment`; scalar fragments carry their
  Go `%v` string form directly (device values are decoded JSON strings).
* The HTTP transport is replaced by an oracle `APIClient` whose fields are
  the three primitive device operations the code performs
  (`GetCurrentConfig`, `PathExists`, `ApplyCommands`); fallible calls
  return `Except String`.
* `sha256` is not re-implemented: `generateConfigInput` is the exact byte
  stream `generateConfigID` feeds to the hasher, so equal inputs give
  equal fingerprints.
-/

/-- Go `strings.Join(xs, sep)`. -/
def sepJoin (sep : String) : List String → String
  | [] => ""
  | [x] => x
  | x :: xs => x ++ sep ++ sepJoin sep xs

/-- `leadsWith pat s` is true when the char list `pat` starts the char list `s`. -/
def leadsWith : List Char → List Char → Bool
  | [], _ => true
  | _ :: _, [] => false
  | a :: as, b :: bs => a == b && leadsWith as bs

def containsSubstrAux (pat : List Char) : List Char → Bool
  | [] => leadsWith pat []
  | a :: t => leadsWith pat (a :: t) || containsSubstrAux pat t

/-- Go `strings.Contains(s, pat)`: `pat` occurs as a contiguous substring of `s`. -/
def containsSubstr (s pat : String) : Bool :=
  containsSubstrAux pat.toList s.toList

/-- The Terraform-side command model (`vyosCommandModel`): op, path, and a
nullable value (`types.String`). -/
structure CommandModel where
  op : String
  path : List String
  value : Option String
deriving DecidableEq, Repr

/-- `types.String.ValueString()`: the empty string when null. -/
def valueStr : Option String → String
  | none => ""
  | some s => s

instance {E A : Type} [DecidableEq E] [DecidableEq A] : DecidableEq (Except E A)
  | .error e1, .error e2 =>
    if h : e1 = e2 then .isTrue (by rw [h]) else .isFalse (by intro hc; cases hc; exact h rfl)
  | .error _, .ok _ => .isFalse (by intro hc; cases hc)
  | .ok _, .error _ => .isFalse (by intro hc; cases hc)
  | .ok a1, .ok a2 =>
    if h : a1 = a2 then .isTrue (by rw [h]) else .isFalse (by intro hc; cases hc; exact h rfl)

/-- The on-wire command (`Command` in `api_client.go`); the unused
`ForceDelete` field is omitted. -/
structure Command where
  op : String
  path : List String
  value : String
deriving DecidableEq, Repr

/-- `isRoutePath` from `resource_vyos_config.go`: at least 4 segments and the
first three are the literals `protocols`, `static`, `route`. -/
def isRoutePath (path : List String) : Bool :=
  match path with
  | p0 :: p1 :: p2 :: _ :: _ => p0 == "protocols" && p1 == "static" && p2 == "route"
  | _ => false

def IsRoutePathAux (prev : String) : List String → Bool
  | [] => false
  | p :: rest => (p == "route" && prev == "static") || IsRoutePathAux p rest

/-- `IsRoutePath` from `api_client.go`: scans for an index `i > 0` with
`path[i] = "route"` and `path[i-1] = "static"`. -/
def IsRoutePath : List String → Bool
  | [] => false
  | p :: rest => IsRoutePathAux p rest

/-- Device configuration fragment: the shape of a JSON-decoded tree. Scalars
carry their Go `%v` string form. -/
inductive Fragment where
  | null : Fragment
  | str (s : String) : Fragment
  | seq (xs : List Fragment) : Fragment
  | map (entries : List (String × Fragment)) : Fragment

/-- Go map lookup `val[k]` on the association-list model of a JSON object. -/
def mapGet : List (String × Fragment) → String → Option Fragment
  | [], _ => none
  | (k, v) :: rest, key => if k == key then some v else mapGet rest key

/-- Sort rendered object entries by key (Go prints and marshals maps in
sorted key order; keys of a Go map are unique, so sorting the rendered
pairs by key gives the same text). -/
def sortPairsByKey (es : List (String × String)) : List (String × String) :=
  List.insertionSort (fun a b : String × String => a.1 ≤ b.1) es

mutual
/-- Go `fmt.Sprintf("%v", x)` on a decoded JSON value: strings print as
themselves, slices as `[a b]`, maps as `map[k:v ...]` with sorted keys,
nil as `<nil>`. -/
def goFmtV : Fragment → String
  | .null => "<nil>"
  | .str s => s
  | .seq xs => "[" ++ sepJoin " " (goFmtVList xs) ++ "]"
  | .map es =>
      "map[" ++
        sepJoin " " ((sortPairsByKey (goFmtVEntries es)).map (fun kv => kv.1 ++ ":" ++ kv.2)) ++ "]"

def goFmtVList : List Fragment → List String
  | [] => []
  | x :: xs => goFmtV x :: goFmtVList xs

def goFmtVEntries : List (String × Fragment) → List (String × String)
  | [] => []
  | (k, v) :: es => (k, goFmtV v) :: goFmtVEntries es
end

def hexDigitChar (n : Nat) : Char :=
  if n < 10 then Char.ofNat (48 + n) else Char.ofNat (87 + (n - 10))

/-- `encoding/json` string escaping (with Go's default HTML escaping of
`<`, `>`, `&`). -/
def jsonEscapeChar (ch : Char) : String :=
  if ch = '"' then "\\\""
  else if ch = '\\' then "\\\\"
  else if ch = '\n' then "\\n"
  else if ch = '\r' then "\\r"
  else if ch = '\t' then "\\t"
  else if ch = '<' then "\\u003c"
  else if ch = '>' then "\\u003e"
  else if ch = '&' then "\\u0026"
  else if ch.toNat < 32 then
    "\\u00" ++ String.singleton (hexDigitChar (ch.toNat / 16)) ++
      String.singleton (hexDigitChar (ch.toNat % 16))
  else String.singleton ch

def jsonQuote (s : String) : String :=
  "\"" ++ String.join (s.toList.map jsonEscapeChar) ++ "\""

mutual
/-- `encoding/json.Marshal` of a decoded JSON value; object keys are
serialized in sorted order, exactly as Go marshals a `map[string]…`. -/
def jsonFrag : Fragment → String
  | .null => "null"
  | .str s => jsonQuote s
  | .seq xs => "[" ++ sepJoin "," (jsonFragList xs) ++ "]"
  | .map es =>
      "\x7b" ++
        sepJoin ","
          ((sortPairsByKey (jsonFragEntries es)).map (fun kv => jsonQuote kv.1 ++ ":" ++ kv.2)) ++
        "\x7d"

def jsonFragList : List Fragment → List String
  | [] => []
  | x :: xs => jsonFrag x :: jsonFragList xs

def jsonFragEntries : List (String × Fragment) → List (String × String)
  | [] => []
  | (k, v) :: es => (k, jsonFrag v) :: jsonFragEntries es
end

/-- `json.Marshal` of a `map[string]interface{}` value (an object fragment). -/
def jsonObj (es : List (String × Fragment)) : String :=
  jsonFrag (.map es)

/-- `json.Marshal(map[string][]string{"address": xs})`. -/
def jsonAddrStrings (xs : List String) : String :=
  "\x7b\"address\":[" ++ sepJoin "," (xs.map jsonQuote) ++ "]\x7d"

/-- `json.Marshal(map[string]interface{}{"address": xs})` where the elements
are marshaled as JSON values. -/
def jsonAddrFragments (xs : List Fragment) : String :=
  "\x7b\"address\":" ++ jsonFrag (.seq xs) ++ "\x7d"

/-- `extractConfigValue` from `resource_vyos_config.go`: canonicalizes a
device fragment into a comparable string. Go's `sort.Strings` /
`sort.Slice` are embedded as `List.insertionSort`, which computes the same
sorted permutation. -/
def extractConfigValue : Fragment → String
  | .null => ""
  | .map val =>
    match mapGet val "address" with
    | some (.seq addresses) =>
        jsonAddrStrings (List.insertionSort (· ≤ ·) (addresses.map goFmtV))
    | _ =>
      if val.length = 1 then
        match val with
        | [(k, .map nested)] => if nested.length = 0 then k else jsonObj val
        | [(_, inner)] => goFmtV inner
        | _ => jsonObj val
      else jsonObj val
  | .seq xs =>
      jsonFrag (.seq ((List.insertionSort (· ≤ ·) (xs.map goFmtV)).map Fragment.str))
  | .str s => s

/-- Per-command string fed to the hasher by `generateConfigID`
(`fmt.Sprintf("%s:%s:%s", op, path, value)` after the next-hop value
exclusion). -/
def cmdHashString (cmd : CommandModel) : String :=
  let joined := sepJoin "::" cmd.path
  let value :=
    if cmd.op == "set" then
      if isRoutePath cmd.path && containsSubstr joined "next-hop" then ""
      else valueStr cmd.value
    else ""
  cmd.op ++ ":" ++ joined ++ ":" ++ value

/-- The exact byte stream `generateConfigID` writes into its SHA-256
hasher; `generateConfigID commands` is the hex digest of this string, so
equal inputs here give equal fingerprints. -/
def generateConfigInput (cmds : List CommandModel) : String :=
  String.join (cmds.map cmdHashString)

/-- `makePathKey` from `resource_vyos_config.go`. -/
def makePathKey (path : List String) : String :=
  sepJoin ":" path

/-- One insertion step of the stable sort used by
`sortCommandsByPathDepth`: walk past strictly deeper commands, insert in
front of the first command that is not deeper. -/
def insertCommandByDepth (c : Command) : List Command → List Command
  | [] => [c]
  | d :: ds =>
    if c.path.length < d.path.length then d :: insertCommandByDepth c ds
    else c :: d :: ds

/-- `sortCommandsByPathDepth`: Go's `sort.SliceStable` with
`less i j = len(path i) > len(path j)`, embedded as the (unique) stable
sort for that comparison. -/
def sortCommandsByPathDepth (cmds : List Command) : List Command :=
  cmds.foldr insertCommandByDepth []

/-- Decides whether a command batch is in weakly descending path-length
order (deepest first). -/
def isSortedByDepthDesc : List Command → Bool
  | [] => true
  | [_] => true
  | a :: b :: t => decide (b.path.length ≤ a.path.length) && isSortedByDepthDesc (b :: t)

/-- The device as an oracle over its three primitive operations
(`/retrieve showConfig`, `/retrieve exists`, `/configure`). -/
structure APIClient where
  GetCurrentConfig : List String → Except String (List (String × Fragment))
  PathExists : List String → Except String Bool
  ApplyCommands : List Command → Except String Unit

/-- The fallthrough tail of `GetPathValue` (`api_client.go` lines 243-259):
query the config, special-case a trailing `address` segment, otherwise
normalize with `extractConfigValue`. -/
def APIClient.GetPathValueRest (c : APIClient) (path : List String) : Except String String :=
  match c.GetCurrentConfig path with
  | .error e => .error e
  | .ok config =>
    if decide (0 < path.length) && (path.getD (path.length - 1) "" == "address") then
      match mapGet config "address" with
      | some (.seq addresses) =>
          .ok (jsonAddrFragments
                (List.insertionSort (fun a b : Fragment => goFmtV a ≤ goFmtV b) addresses))
      | _ => .ok (extractConfigValue (.map config))
    else .ok (extractConfigValue (.map config))

/-- `GetPathValue` from `api_client.go`. The first branch answers from the
path alone; the second asks the device for a single-next-hop collapse and,
when the `next-hop` child is not a mapping, falls through to
`GetPathValueRest` (which re-issues the same query, as the Go code does). -/
def APIClient.GetPathValue (c : APIClient) (path : List String) : Except String String :=
  if IsRoutePath path && decide (5 ≤ path.length)
      && (path.getD (path.length - 2) "" == "next-hop") then
    .ok (path.getD (path.length - 1) "")
  else if IsRoutePath path && decide (4 ≤ path.length)
      && (path.getD (path.length - 1) "" == "next-hop") then
    match c.GetCurrentConfig path with
    | .error e => .error e
    | .ok config =>
      match mapGet config "next-hop" with
      | some (.map nextHops) =>
        match nextHops with
        | [(ip, _)] => .ok ip
        | _ => .ok (jsonObj config)
      | _ => c.GetPathValueRest path
  else c.GetPathValueRest path

/-- Result of the per-command body of the `Read` loop: either the whole
resource is removed from state (`RemoveResource` + return), or the loop
continues with the (possibly value-refreshed) command, the updated
`updateRequired` flag, and the warnings added this iteration. -/
inductive ReadStepResult where
  | gone : ReadStepResult
  | next (c : CommandModel) (upd : Bool) (ws : List String) : ReadStepResult
deriving DecidableEq, Repr

/-- The `!exists` branch of the `Read` loop body (lines 269-285): `none`
means `RemoveResource` (unit gone); `some (upd, ws)` means the iteration
continues with that `updateRequired` flag and these warnings. -/
def readExistCheck (dev : APIClient) (c : CommandModel) (upd : Bool) (ex : Bool) :
    Option (Bool × List String) :=
  if ex then some (upd, [])
  else if IsRoutePath c.path && decide (4 ≤ c.path.length) then
    match dev.PathExists (c.path.take 4) with
    | .error e => some (upd, ["Error checking route existence: " ++ e])
    | .ok routeEx => if routeEx then some (true, []) else none
  else none

/-- The value-refresh tail of the `Read` loop body (lines 287-299):
trailing-`address` paths are skipped (`continue`), a `GetPathValue` error
is silently ignored, a drifted value is written back and flags an update. -/
def readValueRefresh (dev : APIClient) (c : CommandModel) (upd : Bool)
    (ws : List String) : ReadStepResult :=
  if decide (0 < c.path.length) && (c.path.getD (c.path.length - 1) "" == "address") then
    .next c upd ws
  else
    match dev.GetPathValue c.path with
    | .error _ => .next c upd ws
    | .ok cur =>
      if cur != valueStr c.value then .next ⟨c.op, c.path, some cur⟩ true ws
      else .next c upd ws

/-- The body of the `Read` loop (`resource_vyos_config.go` lines 260-300)
for one prior-state command. -/
def readCommandStep (dev : APIClient) (c : CommandModel) (upd : Bool) : ReadStepResult :=
  if c.op == "set" then
    match dev.PathExists c.path with
    | .error e => .next c upd ["Error checking existence: " ++ e]
    | .ok ex =>
      match readExistCheck dev c upd ex with
      | none => .gone
      | some (upd1, ws) => readValueRefresh dev c upd1 ws
  else .next c upd []

/-- Outcome of a `Read` pass: the state was removed (`unit gone`), or kept
with the refreshed commands, the `updateRequired` flag, and all warnings. -/
inductive ReadOutcome where
  | removed (ws : List String) : ReadOutcome
  | kept (cs : List CommandModel) (upd : Bool) (ws : List String) : ReadOutcome
deriving DecidableEq, Repr

def readLoop (dev : APIClient) : List CommandModel → Bool → ReadOutcome
  | [], upd => .kept [] upd []
  | c :: rest, upd =>
    match readCommandStep dev c upd with
    | .gone => .removed []
    | .next c1 upd1 ws =>
      match readLoop dev rest upd1 with
      | .removed ws2 => .removed (ws ++ ws2)
      | .kept cs u ws2 => .kept (c1 :: cs) u (ws ++ ws2)

/-- The `Read` lifecycle entry point over the prior-state command list. -/
def readVyos (dev : APIClient) (state : List CommandModel) : ReadOutcome :=
  readLoop dev state false

/-- `keepPaths` built by `Update` from the plan: path keys of the plan's
`set` commands (the Go `map[string]bool` is modelled as the key list,
membership by `contains`). -/
def keepPathsOf (plan : List CommandModel) : List String :=
  plan.filterMap fun c => if c.op == "set" then some (makePathKey c.path) else none

/-- The delete batch `Update` builds from the prior state (lines 325-345);
the Go `if`'s two branches construct the identical command and are kept as
written. -/
def updateDeleteCommands (plan state : List CommandModel) : List Command :=
  let keep := keepPathsOf plan
  state.filterMap fun c =>
    if c.op == "set" then
      if keep.contains (makePathKey c.path) then none
      else if IsRoutePath c.path && decide (5 ≤ c.path.length)
          && (c.path.getD 3 "" == "next-hop") then
        some ⟨"delete", c.path, ""⟩
      else some ⟨"delete", c.path, ""⟩
    else none

/-- The create batch `Update` builds from the plan (lines 354-381). -/
def updateCreateCommands (plan : List CommandModel) : List Command :=
  plan.filterMap fun c =>
    if c.op == "set" && !(c.value == none) then
      let v := valueStr c.value
      if IsRoutePath c.path && decide (c.path.length = 4) && (c.path.getD 3 "" == "next-hop") then
        some ⟨"set", c.path ++ [v], ""⟩
      else some ⟨"set", c.path, v⟩
    else if c.op == "delete" then some ⟨"delete", c.path, ""⟩
    else none

/-- Post-apply state refresh for one plan command (lines 394-423): route
`next-hop` 4-segment paths keep the planned value, everything else is
re-read from the device, falling back to the planned value on error. -/
def updateRefreshCmd (dev : APIClient) (c : CommandModel) : CommandModel :=
  if c.op == "set" then
    let cur :=
      if IsRoutePath c.path && decide (c.path.length = 4) && (c.path.getD 3 "" == "next-hop") then
        valueStr c.value
      else
        match dev.GetPathValue c.path with
        | .ok v => v
        | .error _ => valueStr c.value
    ⟨c.op, c.path, some cur⟩
  else ⟨c.op, c.path, none⟩

/-- Outcome of an `Update` pass: the batches handed to `ApplyCommands` in
order (a failing batch included), the hard error if one occurred, and the
refreshed state commands when the pass completed. -/
structure UpdateOutcome where
  batches : List (List Command)
  err : Option String
  newCommands : Option (List CommandModel)
deriving DecidableEq, Repr

/-- The `Update` lifecycle entry point (lines 309-427): apply the delete
batch (if nonempty), abort on failure; then apply the create batch (if
nonempty), abort on failure; then refresh state from the device. -/
def updateRun (dev : APIClient) (plan state : List CommandModel) : UpdateOutcome :=
  let del := updateDeleteCommands plan state
  let afterDeletes : List (List Command) → UpdateOutcome := fun batches =>
    let new := updateCreateCommands plan
    let finish : List (List Command) → UpdateOutcome := fun bs =>
      ⟨bs, none, some (plan.map (updateRefreshCmd dev))⟩
    if new.isEmpty then finish batches
    else
      match dev.ApplyCommands new with
      | .error e => ⟨batches ++ [new], some ("Failed to apply new configuration: " ++ e), none⟩
      | .ok _ => finish (batches ++ [new])
  if del.isEmpty then afterDeletes []
  else
    match dev.ApplyCommands del with
    | .error e => ⟨[del], some ("Failed to delete old configuration: " ++ e), none⟩
    | .ok _ => afterDeletes [del]

/-- First loop of `Delete` (lines 443-457): for `set` commands on a route
path with at least 5 segments whose segment 3 is `next-hop`, emit a delete
of `path[:4] ++ ["next-hop", path[4]]`. -/
def deleteNextHopCommands (state : List CommandModel) : List Command :=
  state.filterMap fun c =>
    if c.op == "set" && isRoutePath c.path && decide (5 ≤ c.path.length)
        && (c.path.getD 3 "" == "next-hop") then
      some ⟨"delete", c.path.take 4 ++ ["next-hop", c.path.getD 4 ""], ""⟩
    else none

/-- Second loop of `Delete` (lines 459-470): for `set` commands on a route
path with at least 4 segments (the `path[2] == "route"` test is implied by
`isRoutePath` but kept), emit a delete of the 4-segment base path. -/
def deleteBaseCommands (state : List CommandModel) : List Command :=
  state.filterMap fun c =>
    if c.op == "set" && isRoutePath c.path && decide (4 ≤ c.path.length)
        && (c.path.getD 2 "" == "route") then
      some ⟨"delete", c.path.take 4, ""⟩
    else none

/-- The batch the `Delete` lifecycle entry point applies: both loops'
commands, sorted by `sortCommandsByPathDepth`. -/
def destroyCommands (state : List CommandModel) : List Command :=
  sortCommandsByPathDepth (deleteNextHopCommands state ++ deleteBaseCommands state)

/-! Concrete devices and states used to instantiate the theorems. -/

/-- A 6-segment route path carrying a next-hop address as trailing segment. -/
def nhPath6 : List String :=
  ["protocols", "static", "route", "10.0.0.0/24", "next-hop", "192.0.2.1"]

/-- A plain (non-route) interface path. -/
def ethPath : List String := ["interfaces", "ethernet", "eth0"]

/-- A healthy device that answers every query trivially. -/
def clientOk : APIClient :=
  ⟨fun _ => .ok [], fun _ => .ok true, fun _ => .ok ()⟩

/-- A device whose every call fails. -/
def clientDown : APIClient :=
  ⟨fun _ => .error "connection refused",
   fun _ => .error "connection refused",
   fun _ => .error "connection refused"⟩

/-- A path that `IsRoutePath` accepts although its first segment is not
`protocols`. -/
def oddRoutePath : List String := ["x", "static", "route", "b", "c"]

/-- Device for the read scenario: `oddRoutePath` itself is absent, every
other path (its 4-segment base included) exists. -/
def clientOddRoute : APIClient :=
  ⟨fun _ => .ok [], fun q => .ok (!(q == oddRoutePath)), fun _ => .ok ()⟩

def stateOddRoute : List CommandModel := [⟨"set", oddRoutePath, some "v"⟩]

/-- Prior state whose update delete batch is shallow-then-deep. -/
def stateShallowDeep : List CommandModel :=
  [⟨"set", ["a", "b"], some "1"⟩, ⟨"set", ["a", "b", "c", "d", "e"], some "2"⟩]

def addrEntries1 : List (String × Fragment) :=
  [("address", .seq [.str "10.0.0.1", .str "10.0.0.2"])]

def addrEntries2 : List (String × Fragment) :=
  [("address", .seq [.str "10.0.0.2", .str "10.0.0.1"])]

def addrPath : List String := ["interfaces", "ethernet", "eth0", "address"]

/-- Device reporting the address list in one order. -/
def clientAddrA : APIClient :=
  ⟨fun p => if p == addrPath then .ok addrEntries1 else .ok [],
   fun _ => .ok true, fun _ => .ok ()⟩

/-- Same device, address list permuted. -/
def clientAddrB : APIClient :=
  ⟨fun p => if p == addrPath then .ok addrEntries2 else .ok [],
   fun _ => .ok true, fun _ => .ok ()⟩

/-! Helper lemmas. -/

lemma isRoutePath_iff (p : List String) :
    isRoutePath p = true ↔
      4 ≤ p.length ∧ p.getD 0 "" = "protocols" ∧ p.getD 1 "" = "static" ∧
        p.getD 2 "" = "route" := by
  match p with
  | [] => simp [isRoutePath]
  | [a] => simp [isRoutePath]
  | [a, b] => simp [isRoutePath]
  | [a, b, c] => simp [isRoutePath]
  | a :: b :: c :: d :: t =>
    simp only [isRoutePath, List.getD, List.length_cons, List.getElem?_cons_zero,
      List.getElem?_cons_succ, Option.getD_some, Bool.and_eq_true, beq_iff_eq]
    constructor
    · rintro ⟨⟨h1, h2⟩, h3⟩
      exact ⟨by omega, h1, h2, h3⟩
    · rintro ⟨_, h1, h2, h3⟩
      exact ⟨⟨h1, h2⟩, h3⟩

lemma IsRoutePathAux_iff (prev : String) (l : List String) :
    IsRoutePathAux prev l = true ↔ ("static", "route") ∈ (prev :: l).zip l := by
  induction l generalizing prev with
  | nil => simp [IsRoutePathAux]
  | cons p rest ih =>
    simp [IsRoutePathAux, List.zip, ih p, Prod.ext_iff]
    tauto

lemma IsRoutePath_iff (p : List String) :
    IsRoutePath p = true ↔ ("static", "route") ∈ p.zip p.tail := by
  match p with
  | [] => simp [IsRoutePath]
  | a :: rest => simpa [IsRoutePath] using IsRoutePathAux_iff a rest

lemma IsRoutePath_of_isRoutePath {p : List String} (h : isRoutePath p = true) :
    IsRoutePath p = true := by
  match p with
  | p0 :: p1 :: p2 :: p3 :: t =>
    simp [isRoutePath] at h
    obtain ⟨⟨h0, h1⟩, h2⟩ := h
    simp [IsRoutePath, IsRoutePathAux, h1, h2]

/-! Claim C6. -/

/-- C6 counterexample: `IsRoutePath` accepts `["static", "route"]`, a path
with fewer than four segments whose first three segments are not the
literals `protocols`, `static`, `route`, so the claimed biconditional fails
for the `api_client.go` implementation. -/
theorem c6_counterexample :
    IsRoutePath ["static", "route"] = true ∧
      (["static", "route"] : List String).length < 4 := by
  decide

/-- C6 (amended): `isRoutePath` returns true iff the path has at least four
segments and its first three are the literals `protocols`, `static`,
`route`; `IsRoutePath` instead returns true iff the path contains an
adjacent segment pair `static`, `route` anywhere, so the two
implementations are not equivalent. -/
theorem c6_route_path_predicates (p : List String) :
    (isRoutePath p = true ↔
      4 ≤ p.length ∧ p.getD 0 "" = "protocols" ∧ p.getD 1 "" = "static" ∧
        p.getD 2 "" = "route") ∧
    (IsRoutePath p = true ↔ ("static", "route") ∈ p.zip p.tail) :=
  ⟨isRoutePath_iff p, IsRoutePath_iff p⟩

/-! Claim C10. -/

/-- C10: for a route path of at least five segments whose second-to-last
segment is `next-hop`, `GetPathValue` answers with the final path segment,
for every device alike (no device query is consulted) and never with an
error. -/
theorem c10_next_hop_value_from_path (c1 c2 : APIClient) (path : List String)
    (hroute : isRoutePath path = true) (hlen : 5 ≤ path.length)
    (hnh : path.getD (path.length - 2) "" = "next-hop") :
    c1.GetPathValue path = .ok (path.getD (path.length - 1) "") ∧
      c1.GetPathValue path = c2.GetPathValue path := by
  have hIs : IsRoutePath path = true := IsRoutePath_of_isRoutePath hroute
  have hcond : (IsRoutePath path && decide (5 ≤ path.length)
      && (path.getD (path.length - 2) "" == "next-hop")) = true := by
    simp [hIs, hlen]
    simpa [List.getD_eq_getElem?_getD] using hnh
  constructor
  · unfold APIClient.GetPathValue
    rw [if_pos hcond]
  · unfold APIClient.GetPathValue
    rw [if_pos hcond, if_pos hcond]

/-- C10 witness: evaluated on the concrete 6-segment next-hop path with two
different devices (one of which fails every call). -/
theorem c10_witness :
    clientOk.GetPathValue nhPath6 = .ok "192.0.2.1" ∧
      clientOk.GetPathValue nhPath6 = clientDown.GetPathValue nhPath6 :=
  c10_next_hop_value_from_path clientOk clientDown nhPath6
    (by decide) (by decide) (by decide)

lemma string_append_cancel_left (s a b : String) (h : s ++ a = s ++ b) : a = b := by
  have hd : s.data ++ a.data = s.data ++ b.data := by
    simpa [String.data_append] using congrArg String.data h
  exact String.ext (List.append_cancel_left hd)

/-! Claim C1. -/

/-- C1 counterexample: two `set` commands on the same route path that ends
in an address segment (not in `next-hop`) but contains `next-hop` earlier,
differing only in value, feed the identical byte stream to the fingerprint
hasher — the claim says the value contributes for such paths. -/
theorem c1_counterexample :
    generateConfigInput [⟨"set", nhPath6, some "a"⟩] =
        generateConfigInput [⟨"set", nhPath6, some "b"⟩] ∧
      (some "a" : Option String) ≠ some "b" ∧
      isRoutePath nhPath6 = true ∧
      nhPath6.getD (nhPath6.length - 1) "" ≠ "next-hop" := by
  decide

/-- C1 (amended): the fingerprint hashes, per command in order, the
operation, the `::`-joined path, and the value, except that for a `set`
command on a route path whose joined path contains `next-hop` anywhere as
a substring (not only as trailing segment) the value is replaced by the
empty string; whenever that exclusion does not fire, the value does
contribute to the per-command hash string. -/
theorem c1_fingerprint_value_exclusion :
    (∀ (pre post : List CommandModel) (path : List String) (v1 v2 : Option String),
      isRoutePath path = true →
      containsSubstr (sepJoin "::" path) "next-hop" = true →
      generateConfigInput (pre ++ ⟨"set", path, v1⟩ :: post) =
        generateConfigInput (pre ++ ⟨"set", path, v2⟩ :: post)) ∧
    (∀ (path : List String) (v1 v2 : Option String),
      (isRoutePath path && containsSubstr (sepJoin "::" path) "next-hop") = false →
      valueStr v1 ≠ valueStr v2 →
      cmdHashString ⟨"set", path, v1⟩ ≠ cmdHashString ⟨"set", path, v2⟩) := by
  constructor
  · intro pre post path v1 v2 hroute hsub
    have hcmd : cmdHashString ⟨"set", path, v1⟩ = cmdHashString ⟨"set", path, v2⟩ := by
      simp [cmdHashString, hroute, hsub]
    simp [generateConfigInput, List.map_append, hcmd]
  · intro path v1 v2 hfalse hne heq
    have h1 : cmdHashString ⟨"set", path, v1⟩ =
        "set" ++ ":" ++ sepJoin "::" path ++ ":" ++ valueStr v1 := by
      simp [cmdHashString, hfalse]
    have h2 : cmdHashString ⟨"set", path, v2⟩ =
        "set" ++ ":" ++ sepJoin "::" path ++ ":" ++ valueStr v2 := by
      simp [cmdHashString, hfalse]
    rw [h1, h2] at heq
    exact hne (string_append_cancel_left _ _ _ heq)

/-- C1 witness: the exclusion instantiated on the concrete 6-segment route
path, and the inclusion on a concrete interface path. -/
theorem c1_witness :
    generateConfigInput [⟨"set", nhPath6, some "x"⟩] =
        generateConfigInput [⟨"set", nhPath6, some "y"⟩] ∧
      cmdHashString ⟨"set", ethPath, some "1500"⟩ ≠
        cmdHashString ⟨"set", ethPath, some "9000"⟩ :=
  ⟨c1_fingerprint_value_exclusion.1 [] [] nhPath6 (some "x") (some "y")
      (by decide) (by decide),
   c1_fingerprint_value_exclusion.2 ethPath (some "1500") (some "9000")
      (by decide) (by decide)⟩

/-! Claim C2. -/

/-- C2 (evaluation of the code at the claimed input): for a prior state
holding exactly one `set` command at the 6-segment path
`[protocols, static, route, 10.0.0.0/24, next-hop, 192.0.2.1]`, `Delete`
emits exactly ONE command — the delete of the 4-segment base path — and
its next-hop loop emits nothing, because that loop tests segment index 3
(which holds the route prefix) against `next-hop`. -/
theorem c2_destroy_emits_single_delete :
    destroyCommands [⟨"set", nhPath6, some "192.0.2.1"⟩] =
        [⟨"delete", ["protocols", "static", "route", "10.0.0.0/24"], ""⟩] ∧
      deleteNextHopCommands [⟨"set", nhPath6, some "192.0.2.1"⟩] = [] := by
  decide

/-! Claim C8. -/

/-- C8 counterexample: a single-entry mapping whose value is a non-empty
scalar is collapsed by `extractConfigValue` to the bare value string, not
serialized as a mapping as the claim states. -/
theorem c8_counterexample :
    extractConfigValue (.map [("mtu", .str "1500")]) = "1500" ∧
      extractConfigValue (.map [("mtu", .str "1500")]) ≠
        jsonObj [("mtu", .str "1500")] := by
  decide

/-- C8 (amended): for a mapping without an `address`-keyed sequence: a
single entry with an empty-mapping value collapses to the key; a single
entry with a non-mapping value (scalar or sequence) collapses to that
value's `%v` string; a single entry with a non-empty mapping value, and
every mapping that does not have exactly one entry, is serialized with
deterministic (sorted) key order. -/
theorem c8_single_entry_collapse (es : List (String × Fragment))
    (hA : ∀ xs, mapGet es "address" ≠ some (.seq xs)) :
    (∀ k, es = [(k, .map [])] → extractConfigValue (.map es) = k) ∧
    (∀ k v, es = [(k, v)] → (∀ m, v ≠ .map m) →
      extractConfigValue (.map es) = goFmtV v) ∧
    (∀ k m, es = [(k, .map m)] → m ≠ [] →
      extractConfigValue (.map es) = jsonObj es) ∧
    (es.length ≠ 1 → extractConfigValue (.map es) = jsonObj es) := by
  refine ⟨?_, ?_, ?_, ?_⟩
  · intro k hes
    subst hes
    by_cases hk : k = "address" <;> simp [extractConfigValue, mapGet, hk]
  · intro k v hes hv
    subst hes
    cases v with
    | null => by_cases hk : k = "address" <;> simp [extractConfigValue, mapGet, hk, goFmtV]
    | str s => by_cases hk : k = "address" <;> simp [extractConfigValue, mapGet, hk, goFmtV]
    | seq xs =>
      by_cases hk : k = "address"
      · exact absurd (by simp [mapGet, hk]) (hA xs)
      · simp [extractConfigValue, mapGet, hk]
    | map m => exact absurd rfl (hv m)
  · intro k m hes hm
    subst hes
    have hml : m.length ≠ 0 := by simpa [List.length_eq_zero] using hm
    by_cases hk : k = "address" <;>
      simp [extractConfigValue, mapGet, hk, hml, jsonObj]
  · intro hlen
    rcases hmg : mapGet es "address" with _ | f
    · simp [extractConfigValue, hmg, hlen, jsonObj]
    · cases f with
      | seq xs => exact absurd hmg (hA xs)
      | null => simp [extractConfigValue, hmg, hlen, jsonObj]
      | str s => simp [extractConfigValue, hmg, hlen, jsonObj]
      | map m => simp [extractConfigValue, hmg, hlen, jsonObj]

/-- C8 witness: the flag-like single entry `{"loopback": {}}` collapses to
the bare key `loopback`, and a two-entry mapping is serialized as JSON. -/
theorem c8_witness :
    extractConfigValue (.map [("loopback", Fragment.map [])]) = "loopback" ∧
      extractConfigValue
          (.map [("hw-id", .str "aa"), ("mtu", .str "1500")]) =
        jsonObj [("hw-id", .str "aa"), ("mtu", .str "1500")] :=
  ⟨(c8_single_entry_collapse [("loopback", .map [])]
      (by intro xs h; simp [mapGet] at h)).1 "loopback" rfl,
   (c8_single_entry_collapse [("hw-id", .str "aa"), ("mtu", .str "1500")]
      (by intro xs h; simp [mapGet] at h)).2.2.2 (by decide)⟩

lemma sortedStringsUnique (l1 l2 : List String) (h : l1.Perm l2) :
    List.insertionSort (· ≤ ·) l1 = List.insertionSort (· ≤ ·) l2 :=
  List.eq_of_perm_of_sorted
    ((List.perm_insertionSort _ l1).trans (h.trans (List.perm_insertionSort _ l2).symm))
    (List.sorted_insertionSort _ l1) (List.sorted_insertionSort _ l2)

lemma goFmtV_str (s : String) : goFmtV (.str s) = s := by
  rw [goFmtV]

lemma orderedInsert_str (y : String) (l : List String) :
    List.orderedInsert (fun a b : Fragment => goFmtV a ≤ goFmtV b) (.str y) (l.map .str) =
      (List.orderedInsert (· ≤ ·) y l).map .str := by
  induction l with
  | nil => rfl
  | cons b t ih =>
    simp only [List.map_cons, List.orderedInsert]
    by_cases h : y ≤ b
    · rw [if_pos h, if_pos (by rw [goFmtV_str, goFmtV_str]; exact h), List.map_cons,
        List.map_cons]
    · rw [if_neg h, if_neg (by rw [goFmtV_str, goFmtV_str]; exact h), List.map_cons, ih]

lemma insertionSort_map_str (ys : List String) :
    List.insertionSort (fun a b : Fragment => goFmtV a ≤ goFmtV b) (ys.map .str) =
      (List.insertionSort (· ≤ ·) ys).map .str := by
  induction ys with
  | nil => rfl
  | cons y t ih =>
    simp only [List.map_cons, List.insertionSort]
    rw [ih, orderedInsert_str]

lemma getPathValue_not_route (c : APIClient) (path : List String)
    (hIs : IsRoutePath path = false) :
    c.GetPathValue path = c.GetPathValueRest path := by
  unfold APIClient.GetPathValue
  rw [if_neg (by simp [hIs]), if_neg (by simp [hIs])]

lemma getPathValueRest_addr (c : APIClient) (path : List String)
    (es : List (String × Fragment)) (ys : List String)
    (hg : c.GetCurrentConfig path = .ok es)
    (hlen : 0 < path.length) (hlast : path.getD (path.length - 1) "" = "address")
    (hm : mapGet es "address" = some (.seq (ys.map .str))) :
    c.GetPathValueRest path =
      .ok (jsonAddrFragments ((List.insertionSort (· ≤ ·) ys).map Fragment.str)) := by
  have hcA : (decide (0 < path.length)
      && (path.getD (path.length - 1) "" == "address")) = true := by
    simp only [Bool.and_eq_true, decide_eq_true_eq, beq_iff_eq]
    exact ⟨hlen, hlast⟩
  simp only [APIClient.GetPathValueRest, hg, hcA, eq_self_iff_true, if_true, hm]
  rw [insertionSort_map_str]

/-! Claim C7. -/

/-- C7: address-list normalization is order-independent: two mappings whose
`address` sequences have the same string forms up to permutation normalize
to the same canonical `{address: [...]}` string — both in
`extractConfigValue` and in the trailing-`address` branch of
`GetPathValue` (stated there for devices reporting permuted scalar address
lists at a non-route path). -/
theorem c7_address_order_independent :
    (∀ (es1 es2 : List (String × Fragment)) (xs1 xs2 : List Fragment),
      mapGet es1 "address" = some (.seq xs1) →
      mapGet es2 "address" = some (.seq xs2) →
      (xs1.map goFmtV).Perm (xs2.map goFmtV) →
      extractConfigValue (.map es1) = extractConfigValue (.map es2)) ∧
    (∀ (c1 c2 : APIClient) (path : List String)
        (es1 es2 : List (String × Fragment)) (ys1 ys2 : List String),
      IsRoutePath path = false →
      0 < path.length → path.getD (path.length - 1) "" = "address" →
      c1.GetCurrentConfig path = .ok es1 →
      c2.GetCurrentConfig path = .ok es2 →
      mapGet es1 "address" = some (.seq (ys1.map .str)) →
      mapGet es2 "address" = some (.seq (ys2.map .str)) →
      ys1.Perm ys2 →
      c1.GetPathValue path = c2.GetPathValue path) := by
  constructor
  · intro es1 es2 xs1 xs2 h1 h2 hperm
    simp only [extractConfigValue, h1, h2]
    exact congrArg jsonAddrStrings (sortedStringsUnique _ _ hperm)
  · intro c1 c2 path es1 es2 ys1 ys2 hIs hlen hlast hg1 hg2 hm1 hm2 hperm
    rw [getPathValue_not_route c1 path hIs, getPathValue_not_route c2 path hIs,
      getPathValueRest_addr c1 path es1 ys1 hg1 hlen hlast hm1,
      getPathValueRest_addr c2 path es2 ys2 hg2 hlen hlast hm2,
      sortedStringsUnique ys1 ys2 hperm]

/-- C7 witness: the two permuted concrete address fragments normalize to
the same string, and the two concrete devices reporting them agree on
`GetPathValue`. -/
theorem c7_witness :
    extractConfigValue (.map addrEntries1) = extractConfigValue (.map addrEntries2) ∧
      clientAddrA.GetPathValue addrPath = clientAddrB.GetPathValue addrPath :=
  ⟨c7_address_order_independent.1 addrEntries1 addrEntries2
      [.str "10.0.0.1", .str "10.0.0.2"] [.str "10.0.0.2", .str "10.0.0.1"]
      rfl rfl (by decide),
   c7_address_order_independent.2 clientAddrA clientAddrB addrPath
      addrEntries1 addrEntries2 ["10.0.0.1", "10.0.0.2"] ["10.0.0.2", "10.0.0.1"]
      (by decide) (by decide) (by decide) rfl rfl rfl rfl (by decide)⟩

lemma insertCommandByDepth_perm (c : Command) (l : List Command) :
    (insertCommandByDepth c l).Perm (c :: l) := by
  induction l with
  | nil => exact List.Perm.refl _
  | cons d ds ih =>
    rw [insertCommandByDepth]
    by_cases hlt : c.path.length < d.path.length
    · rw [if_pos hlt]
      exact (ih.cons d).trans (List.Perm.swap c d ds)
    · rw [if_neg hlt]

lemma insertCommandByDepth_chain (c : Command) (l : List Command)
    (h : List.Chain' (fun a b : Command => b.path.length ≤ a.path.length) l) :
    List.Chain' (fun a b : Command => b.path.length ≤ a.path.length)
      (insertCommandByDepth c l) := by
  induction l with
  | nil => simp [insertCommandByDepth]
  | cons d ds ih =>
    rw [insertCommandByDepth]
    by_cases hlt : c.path.length < d.path.length
    · rw [if_pos hlt]
      have hins := ih h.tail
      rcases ds with _ | ⟨e, t⟩
      · exact List.chain'_pair.mpr (by omega)
      · rw [insertCommandByDepth] at hins ⊢
        by_cases hlt2 : c.path.length < e.path.length
        · rw [if_pos hlt2] at hins ⊢
          exact List.chain'_cons.mpr ⟨(List.chain'_cons.mp h).1, hins⟩
        · rw [if_neg hlt2] at hins ⊢
          exact List.chain'_cons.mpr ⟨by omega, hins⟩
    · rw [if_neg hlt]
      exact List.chain'_cons.mpr ⟨by omega, h⟩

lemma isSortedByDepthDesc_iff (l : List Command) :
    isSortedByDepthDesc l = true ↔
      List.Chain' (fun a b : Command => b.path.length ≤ a.path.length) l := by
  induction l with
  | nil => simp [isSortedByDepthDesc]
  | cons a t ih =>
    cases t with
    | nil => simp [isSortedByDepthDesc]
    | cons b t2 =>
      rw [show isSortedByDepthDesc (a :: b :: t2) =
            (decide (b.path.length ≤ a.path.length) && isSortedByDepthDesc (b :: t2))
          from rfl,
        Bool.and_eq_true, decide_eq_true_eq, ih, List.chain'_cons]

lemma insertCommandByDepth_filter (c : Command) (l : List Command) (n : Nat) :
    (insertCommandByDepth c l).filter (fun x => decide (x.path.length = n)) =
      if c.path.length = n then
        c :: l.filter (fun x => decide (x.path.length = n))
      else l.filter (fun x => decide (x.path.length = n)) := by
  induction l with
  | nil =>
    by_cases hcn : c.path.length = n <;>
      simp [insertCommandByDepth, List.filter, hcn]
  | cons d ds ih =>
    rw [insertCommandByDepth]
    by_cases hlt : c.path.length < d.path.length
    · rw [if_pos hlt]
      by_cases hcn : c.path.length = n
      · have hdn : ¬(d.path.length = n) := by omega
        simp [List.filter_cons, hdn, hcn, ih]
      · simp [List.filter_cons, hcn, ih]
    · rw [if_neg hlt]
      by_cases hcn : c.path.length = n <;> simp [List.filter_cons, hcn]

/-! Claim C3. -/

/-- C3 counterexample: in an update pass with an empty plan and a prior
state listing a 2-segment path before a 5-segment path, the applied delete
batch keeps the prior-state order — shallow first — and is not in
descending path-length order. -/
theorem c3_counterexample :
    (updateRun clientOk [] stateShallowDeep).batches =
        [[⟨"delete", ["a", "b"], ""⟩, ⟨"delete", ["a", "b", "c", "d", "e"], ""⟩]] ∧
      isSortedByDepthDesc (updateDeleteCommands [] stateShallowDeep) = false := by
  decide

/-- C3 (amended): deletes are applied before creates — in an update pass
whose both batches are nonempty and applied successfully, the batch
sequence is exactly the delete batch followed by the create batch (the
delete batch itself preserves prior-state order); descending path-length
ordering is produced by `sortCommandsByPathDepth` (used by destroy), which
returns a weakly descending-by-depth, stable (equal-length commands keep
their relative order) permutation of its input. -/
theorem c3_deletes_before_creates_and_depth_sort :
    (∀ (dev : APIClient) (plan state : List CommandModel),
      updateDeleteCommands plan state ≠ [] →
      updateCreateCommands plan ≠ [] →
      dev.ApplyCommands (updateDeleteCommands plan state) = .ok () →
      dev.ApplyCommands (updateCreateCommands plan) = .ok () →
      (updateRun dev plan state).batches =
        [updateDeleteCommands plan state, updateCreateCommands plan]) ∧
    (∀ l : List Command, isSortedByDepthDesc (sortCommandsByPathDepth l) = true) ∧
    (∀ (l : List Command) (n : Nat),
      (sortCommandsByPathDepth l).filter (fun x => decide (x.path.length = n)) =
        l.filter (fun x => decide (x.path.length = n))) ∧
    (∀ l : List Command, (sortCommandsByPathDepth l).Perm l) := by
  have hsort : ∀ l : List Command,
      isSortedByDepthDesc (sortCommandsByPathDepth l) = true := by
    intro l
    rw [isSortedByDepthDesc_iff]
    induction l with
    | nil => simp [sortCommandsByPathDepth]
    | cons c t ih =>
      rw [sortCommandsByPathDepth, List.foldr_cons]
      exact insertCommandByDepth_chain c _ ih
  have hstable : ∀ (l : List Command) (n : Nat),
      (sortCommandsByPathDepth l).filter (fun x => decide (x.path.length = n)) =
        l.filter (fun x => decide (x.path.length = n)) := by
    intro l n
    induction l with
    | nil => rfl
    | cons c t ih =>
      rw [sortCommandsByPathDepth, List.foldr_cons,
        show t.foldr insertCommandByDepth [] = sortCommandsByPathDepth t from rfl,
        insertCommandByDepth_filter, List.filter_cons]
      by_cases hcn : c.path.length = n <;> simp [hcn, ih]
  have hperm : ∀ l : List Command, (sortCommandsByPathDepth l).Perm l := by
    intro l
    induction l with
    | nil => exact List.Perm.refl _
    | cons c t ih =>
      rw [sortCommandsByPathDepth, List.foldr_cons]
      exact (insertCommandByDepth_perm c _).trans (ih.cons c)
  refine ⟨?_, hsort, hstable, hperm⟩
  intro dev plan state hdel hnew hokd hokn
  have hde : (updateDeleteCommands plan state).isEmpty = false := by
    simpa [List.isEmpty_iff] using hdel
  have hne : (updateCreateCommands plan).isEmpty = false := by
    simpa [List.isEmpty_iff] using hnew
  simp [updateRun, hde, hne, hokd, hokn]

/-- C3 witness: a concrete update pass with one delete and one create
applies the delete batch first and the create batch second, and the depth
sort on a concrete batch is in descending order. -/
theorem c3_witness :
    (updateRun clientOk [⟨"set", ["p", "q"], some "v"⟩]
        [⟨"set", ["a", "b"], some "1"⟩]).batches =
        [updateDeleteCommands [⟨"set", ["p", "q"], some "v"⟩]
            [⟨"set", ["a", "b"], some "1"⟩],
          updateCreateCommands [⟨"set", ["p", "q"], some "v"⟩]] ∧
      isSortedByDepthDesc (sortCommandsByPathDepth
        [⟨"delete", ["a"], ""⟩, ⟨"delete", ["a", "b", "c"], ""⟩]) = true :=
  ⟨c3_deletes_before_creates_and_depth_sort.1 clientOk
      [⟨"set", ["p", "q"], some "v"⟩] [⟨"set", ["a", "b"], some "1"⟩]
      (by decide) (by decide) rfl rfl,
   c3_deletes_before_creates_and_depth_sort.2.1
      [⟨"delete", ["a"], ""⟩, ⟨"delete", ["a", "b", "c"], ""⟩]⟩

lemma readValueRefresh_next_true (dev : APIClient) (c : CommandModel) (ws : List String) :
    ∃ c1 ws1, readValueRefresh dev c true ws = .next c1 true ws1 := by
  unfold readValueRefresh
  by_cases haddr : (decide (0 < c.path.length)
      && (c.path.getD (c.path.length - 1) "" == "address")) = true
  · exact ⟨c, ws, by rw [if_pos haddr]⟩
  · rw [if_neg haddr]
    rcases hgv : dev.GetPathValue c.path with e | cur
    · exact ⟨c, ws, rfl⟩
    · by_cases hne : (cur != valueStr c.value) = true
      · exact ⟨⟨c.op, c.path, some cur⟩, ws, by simp [hne]⟩
      · exact ⟨c, ws, by simp [hne]⟩

/-! Claim C4. -/

/-- C4 counterexample: the prior-state path `[x, static, route, b, c]` is
not a Route Path (its first segment is not `protocols`), `exists` reports
it absent, yet `Read` does not signal "unit gone": because `IsRoutePath`
matches the embedded `static`,`route` pair and the 4-segment base path
exists, the pass continues with the field marked for update. -/
theorem c4_counterexample :
    isRoutePath oddRoutePath = false ∧
      clientOddRoute.PathExists oddRoutePath = .ok false ∧
      readVyos clientOddRoute stateOddRoute =
        .kept [⟨"set", oddRoutePath, some "\x7b\x7d"⟩] true [] := by
  decide

/-- C4 (amended): during read, for a prior-state `set` command whose path
`exists` reports absent: if the path does not satisfy `IsRoutePath` with
at least 4 segments (the code's route test, which accepts any path
containing an adjacent `static`,`route` pair — not only spec Route Paths),
the unit is gone and the pass ends; if it satisfies that test and the
4-segment base path exists, the command is marked update-required and the
pass continues; if the base path is also absent, the unit is gone. -/
theorem c4_read_absent_path_handling (dev : APIClient) (c : CommandModel) (upd : Bool)
    (hop : c.op = "set") (hex : dev.PathExists c.path = .ok false) :
    (¬(IsRoutePath c.path = true ∧ 4 ≤ c.path.length) →
        readCommandStep dev c upd = .gone) ∧
    (IsRoutePath c.path = true → 4 ≤ c.path.length →
        dev.PathExists (c.path.take 4) = .ok false →
        readCommandStep dev c upd = .gone) ∧
    (IsRoutePath c.path = true → 4 ≤ c.path.length →
        dev.PathExists (c.path.take 4) = .ok true →
        ∃ c1 ws, readCommandStep dev c upd = .next c1 true ws) ∧
    (∀ rest, readCommandStep dev c upd = .gone →
        readLoop dev (c :: rest) upd = .removed []) := by
  refine ⟨?_, ?_, ?_, ?_⟩
  · intro hnot
    have hcond : (IsRoutePath c.path && decide (4 ≤ c.path.length)) = false := by
      cases hIs : IsRoutePath c.path with
      | false => simp
      | true =>
        simp only [Bool.true_and, decide_eq_false_iff_not]
        exact fun hl => hnot ⟨hIs, hl⟩
    simp [readCommandStep, hop, hex, readExistCheck, hcond]
  · intro h1 h2 hbase
    have hcond : (IsRoutePath c.path && decide (4 ≤ c.path.length)) = true := by
      simp [h1, h2]
    simp [readCommandStep, hop, hex, readExistCheck, hcond, hbase]
  · intro h1 h2 hbase
    have hcond : (IsRoutePath c.path && decide (4 ≤ c.path.length)) = true := by
      simp [h1, h2]
    obtain ⟨c1, ws1, hr⟩ := readValueRefresh_next_true dev c []
    exact ⟨c1, ws1, by simp [readCommandStep, hop, hex, readExistCheck, hcond, hbase, hr]⟩
  · intro rest hgone
    simp [readLoop, hgone]

/-- C4 witness: instantiated on a device where the 5-segment pseudo-route
path is absent but its base exists (continue, update required), and on a
device where a plain 2-segment path is absent (unit gone). -/
theorem c4_witness :
    (∃ c1 ws, readCommandStep clientOddRoute ⟨"set", oddRoutePath, some "w"⟩ false =
        .next c1 true ws) ∧
      readCommandStep (⟨fun _ => .ok [], fun _ => .ok false, fun _ => .ok ()⟩ : APIClient)
          ⟨"set", ["i", "j"], some "w"⟩ false = .gone :=
  ⟨(c4_read_absent_path_handling clientOddRoute ⟨"set", oddRoutePath, some "w"⟩ false
      rfl (by decide)).2.2.1 (by decide) (by decide) (by decide),
   (c4_read_absent_path_handling
      (⟨fun _ => .ok [], fun _ => .ok false, fun _ => .ok ()⟩ : APIClient)
      ⟨"set", ["i", "j"], some "w"⟩ false rfl rfl).1 (by decide)⟩

/-! Claim C5. -/

/-- C5: a failing delete-batch apply aborts the update pass as a hard
error with the delete batch as the only batch ever handed to the device —
the create phase never runs; in read, a failing existence check only adds
a warning and the loop continues with the command untouched, and a failing
value read leaves the command untouched and continues without even a
warning — read never hard-fails. -/
theorem c5_failed_delete_aborts_before_create :
    (∀ (dev : APIClient) (plan state : List CommandModel) (e : String),
      updateDeleteCommands plan state ≠ [] →
      dev.ApplyCommands (updateDeleteCommands plan state) = .error e →
      updateRun dev plan state =
        ⟨[updateDeleteCommands plan state],
          some ("Failed to delete old configuration: " ++ e), none⟩) ∧
    (∀ (dev : APIClient) (c : CommandModel) (upd : Bool) (e : String),
      c.op = "set" → dev.PathExists c.path = .error e →
      readCommandStep dev c upd = .next c upd ["Error checking existence: " ++ e]) ∧
    (∀ (dev : APIClient) (c : CommandModel) (upd : Bool) (e : String),
      c.op = "set" → dev.PathExists c.path = .ok true →
      (decide (0 < c.path.length)
        && (c.path.getD (c.path.length - 1) "" == "address")) = false →
      dev.GetPathValue c.path = .error e →
      readCommandStep dev c upd = .next c upd []) := by
  refine ⟨?_, ?_, ?_⟩
  · intro dev plan state e hdel happly
    have hde : (updateDeleteCommands plan state).isEmpty = false := by
      simpa [List.isEmpty_iff] using hdel
    simp [updateRun, hde, happly]
  · intro dev c upd e hop hpe
    simp [readCommandStep, hop, hpe]
  · intro dev c upd e hop hpe haddr hgv
    simp [readCommandStep, hop, hpe, readExistCheck, readValueRefresh, haddr, hgv]

/-- C5 witness: against a dead device, the update pass with one pending
delete aborts with the delete batch as the only attempted batch; the read
step turns the existence error into a warning and keeps going; a value
read error leaves the command unchanged. -/
theorem c5_witness :
    updateRun clientDown [] [⟨"set", ["a", "b"], some "1"⟩] =
        ⟨[[⟨"delete", ["a", "b"], ""⟩]],
          some "Failed to delete old configuration: connection refused", none⟩ ∧
      readCommandStep clientDown ⟨"set", ["a", "b"], some "1"⟩ false =
        .next ⟨"set", ["a", "b"], some "1"⟩ false
          ["Error checking existence: connection refused"] ∧
      readCommandStep (⟨fun _ => .error "boom", fun _ => .ok true, fun _ => .ok ()⟩ :
            APIClient) ⟨"set", ["a", "b"], some "1"⟩ false =
        .next ⟨"set", ["a", "b"], some "1"⟩ false [] :=
  ⟨c5_failed_delete_aborts_before_create.1 clientDown [] [⟨"set", ["a", "b"], some "1"⟩]
      "connection refused" (by decide) rfl,
   c5_failed_delete_aborts_before_create.2.1 clientDown ⟨"set", ["a", "b"], some "1"⟩
      false "connection refused" rfl rfl,
   c5_failed_delete_aborts_before_create.2.2
      (⟨fun _ => .error "boom", fun _ => .ok true, fun _ => .ok ()⟩ : APIClient)
      ⟨"set", ["a", "b"], some "1"⟩ false "boom" rfl rfl (by decide) rfl⟩

lemma getPathValue_congr (d1 d2 : APIClient) (p : List String)
    (h : d1.GetCurrentConfig p = d2.GetCurrentConfig p) :
    d1.GetPathValue p = d2.GetPathValue p := by
  unfold APIClient.GetPathValue APIClient.GetPathValueRest
  rw [h]

/-! Claim C9. -/

/-- C9: during read, a `set` command whose path ends in `address` is never
value-refreshed: the step either removes the unit (existence drift) or
returns the command with its stored value untouched; moreover the whole
read pass is blind to what the device returns for address-ending paths —
two devices with identical existence answers whose configs differ only at
address-ending paths produce identical read outcomes, so such a command
alone can never flag an update through value drift. -/
theorem c9_read_skips_address_values :
    (∀ (dev : APIClient) (c : CommandModel) (upd : Bool),
      c.op = "set" → 0 < c.path.length →
      c.path.getD (c.path.length - 1) "" = "address" →
      readCommandStep dev c upd = .gone ∨
        ∃ u1 ws, readCommandStep dev c upd = .next c u1 ws) ∧
    (∀ d1 d2 : APIClient,
      d1.PathExists = d2.PathExists →
      (∀ p, ¬(0 < p.length ∧ p.getD (p.length - 1) "" = "address") →
        d1.GetCurrentConfig p = d2.GetCurrentConfig p) →
      ∀ (state : List CommandModel) (upd : Bool),
        readLoop d1 state upd = readLoop d2 state upd) := by
  constructor
  · intro dev c upd hop hlen hlast
    have haddr : (decide (0 < c.path.length)
        && (c.path.getD (c.path.length - 1) "" == "address")) = true := by
      simp only [Bool.and_eq_true, decide_eq_true_eq, beq_iff_eq]
      exact ⟨hlen, hlast⟩
    rcases hpe : dev.PathExists c.path with e | ex
    · exact Or.inr ⟨upd, ["Error checking existence: " ++ e],
        by simp [readCommandStep, hop, hpe]⟩
    · rcases hec : readExistCheck dev c upd ex with _ | ⟨u1, ws⟩
      · exact Or.inl (by simp [readCommandStep, hop, hpe, hec])
      · refine Or.inr ⟨u1, ws, ?_⟩
        have hstep : readCommandStep dev c upd = readValueRefresh dev c u1 ws := by
          simp [readCommandStep, hop, hpe, hec]
        rw [hstep]
        unfold readValueRefresh
        rw [if_pos haddr]
  · intro d1 d2 hPE hGC
    have hgv : ∀ p, ¬(0 < p.length ∧ p.getD (p.length - 1) "" = "address") →
        d1.GetPathValue p = d2.GetPathValue p :=
      fun p hp => getPathValue_congr d1 d2 p (hGC p hp)
    have hstep : ∀ c upd, readCommandStep d1 c upd = readCommandStep d2 c upd := by
      intro c upd
      have hec : ∀ ex, readExistCheck d1 c upd ex = readExistCheck d2 c upd ex := by
        intro ex
        unfold readExistCheck
        rw [hPE]
      have hrefresh : ∀ u ws, readValueRefresh d1 c u ws = readValueRefresh d2 c u ws := by
        intro u ws
        unfold readValueRefresh
        by_cases haddr : (decide (0 < c.path.length)
            && (c.path.getD (c.path.length - 1) "" == "address")) = true
        · rw [if_pos haddr, if_pos haddr]
        · have hnp : ¬(0 < c.path.length ∧
              c.path.getD (c.path.length - 1) "" = "address") := by
            intro hc
            exact haddr (by
              simp only [Bool.and_eq_true, decide_eq_true_eq, beq_iff_eq]
              exact hc)
          rw [if_neg haddr, if_neg haddr, hgv c.path hnp]
      unfold readCommandStep
      rw [hPE]
      simp only [hec, hrefresh]
    intro state
    induction state with
    | nil => intro upd; rfl
    | cons c rest ih =>
      intro upd
      simp only [readLoop, hstep c upd, ih]

/-- C9 witness: on the concrete device pair differing only in the address
list they report at the address path, the read pass gives identical
outcomes, and the address-path step keeps the stored value. -/
theorem c9_witness :
    (readCommandStep clientAddrA ⟨"set", addrPath, some "val"⟩ false = .gone ∨
      ∃ u1 ws, readCommandStep clientAddrA ⟨"set", addrPath, some "val"⟩ false =
        .next ⟨"set", addrPath, some "val"⟩ u1 ws) ∧
      readLoop clientAddrA [⟨"set", addrPath, some "x"⟩] false =
        readLoop clientAddrB [⟨"set", addrPath, some "x"⟩] false :=
  ⟨c9_read_skips_address_values.1 clientAddrA ⟨"set", addrPath, some "val"⟩ false
      rfl (by decide) (by decide),
   c9_read_skips_address_values.2 clientAddrA clientAddrB rfl
      (by
        intro p hp
        by_cases hc : p = addrPath
        · subst hc
          exact absurd (by decide) hp
        · show (if p == addrPath then Except.ok addrEntries1 else Except.ok []) =
            (if p == addrPath then Except.ok addrEntries2 else Except.ok [])
          have hb : (p == addrPath) = false := by simp [hc]
          simp [hb])
      [⟨"set", addrPath, some "x"⟩] false⟩
